import Mathlib

/-!
STACK: a linked-list stack of opaque element pointers (stack.c / stack.h).

Shallow embedding of `src/src/stack.c`.

* A C data pointer (`void*`, `StackElement`, the function pointer `clear`) is a
  `Ptr`: `none` is `NULL`, `some a` is the non-null address `a`.
* A value of type `sNode*` is an `sNodePtr`: either `null` or a node cell
  holding `stackElem` and `next` (the chain is finite and unshared).
* `int count` is a `CInt`, a signed 32-bit integer; `count++` and
  `count--` go through `CInt.wrap`.
* A `STACK*` argument is an `Option STACK` (`none` is `NULL`); an operation
  returns the new content of the pointee next to its C return value.
* Dereferencing a null pointer is the error result `Fault.nullDeref`.
* The blocks the element pointers may point to form a `Heap`; `free` on a
  pointer that is neither `NULL` nor a live block is `Fault.invalidFree`.
-/

/-- A C pointer value: `none` is `NULL`, `some a` is the non-null address `a`. -/
abbrev Ptr := Option Nat

/-- The null pointer. -/
abbrev NULL : Ptr := none

/-- The type `StackElement`: `typedef void* StackElement;` (stack.h:38). -/
abbrev StackElement := Ptr

/-- The result of an access the C standard leaves undefined. -/
inductive Fault where
  /-- A read or write through `NULL`. -/
  | nullDeref
  /-- A read or write through a pointer to a block that is not live. -/
  | badAccess
  /-- A call of `free` on a pointer that is neither `NULL` nor a live block; a
  second `free` of the same block is one. -/
  | invalidFree
deriving DecidableEq, Repr

deriving instance DecidableEq for Except

/-- A C `int`: an integer in the signed 32-bit range `-2^31 .. 2^31 - 1`. -/
abbrev CInt := { v : Int // -2147483648 ≤ v ∧ v ≤ 2147483647 }

/-- Reduction of a mathematical integer to the signed 32-bit range
(`x mod 2^32`, read as signed): what `count++` and `count--` store. -/
def CInt.wrap (x : Int) : CInt :=
  ⟨(x + 2147483648) % 4294967296 - 2147483648, by omega, by omega⟩

/-- The `int` constant `0`. -/
def CInt.zero : CInt := ⟨0, by decide, by decide⟩

/-- A value of type `sNode*` (stack.c:21-28): `null`, or a pointer to a node
with its two fields `stackElem` and `next`. -/
inductive sNodePtr where
  | null : sNodePtr
  | node (stackElem : StackElement) (next : sNodePtr) : sNodePtr
deriving DecidableEq, Repr

/-- The record `struct _stack` (stack.c:30-40). -/
structure STACK where
  /-- The pointer to the top most node of the stack. -/
  top : sNodePtr
  /-- The number of nodes in the stack. -/
  count : CInt
  /-- The function to use when deleting the stack. -/
  clear : Ptr
deriving DecidableEq

/-- Number of nodes reachable from a node pointer by following `next`. -/
def sNodePtr.length : sNodePtr → Nat
  | .null => 0
  | .node _ nx => nx.length + 1

/-- The elements stored in the nodes reachable from a node pointer, topmost first. -/
def sNodePtr.elems : sNodePtr → List StackElement
  | .null => []
  | .node e nx => e :: nx.elems

/-- Function `STACK_createStack` (stack.c:42-55). The argument says whether `malloc`
returned a block; on failure the function returns `NULL`. -/
def STACK_createStack (mallocOk : Bool) : Option STACK :=
  if mallocOk = false then
    none
  else
    some { top := .null, clear := NULL, count := CInt.zero }

/-- Function `STACK_push` (stack.c:57-67). The node allocation of line 60, which the
source does not check, is taken to succeed. -/
def STACK_push (e : StackElement) (s : Option STACK) : Option STACK :=
  match s with
  | some st =>
    let n : sNodePtr := .node e st.top
    some { st with top := n, count := CInt.wrap (st.count.val + 1) }
  | none => none

/-- Function `STACK_pop` (stack.c:69-80): the returned element and the new
content of `*s`. The detached node, whose `next` line 74 resets, no longer
belongs to the stack. -/
def STACK_pop (s : Option STACK) : Except Fault (StackElement × Option STACK) :=
  match s with
  | some st =>
    if st.count.val > 0 then
      match st.top with
      | .null => .error .nullDeref
      | .node stackElem next =>
        .ok (stackElem, some { st with top := next, count := CInt.wrap (st.count.val - 1) })
    else
      .ok (NULL, s)
  | none => .ok (NULL, s)

/-- Function `STACK_consult` (stack.c:82-87): the returned element and the (unwritten)
content of `*s`. -/
def STACK_consult (s : Option STACK) : Except Fault (StackElement × Option STACK) :=
  match s with
  | some st =>
    if st.count.val > 0 then
      match st.top with
      | .null => .error .nullDeref
      | .node stackElem _ => .ok (stackElem, s)
    else
      .ok (NULL, s)
  | none => .ok (NULL, s)

/-- Function `STACK_getSize` (stack.c:89-94). -/
def STACK_getSize (s : Option STACK) : CInt :=
  match s with
  | some st => st.count
  | none => CInt.zero

/-- Function `STACK_setClearFunction` (stack.c:96-100). -/
def STACK_setClearFunction (f : Ptr) (s : Option STACK) : Option STACK :=
  match s with
  | some st => some { st with clear := f }
  | none => none

/-- A call the stack functions make to the outside world: to the allocator or
through the cleanup function pointer. -/
inductive Event where
  /-- A call `malloc(...)` that returns a block (lines 44 and 60). -/
  | malloc
  /-- The call `s->clear(e)` through the function pointer `f` (line 107). -/
  | call (f : Nat) (e : StackElement)
  /-- The call `free(n->stackElem)` (line 109). -/
  | freeElem (e : StackElement)
  /-- The call `free(n)` on a node (line 112). -/
  | freeNode
  /-- The call `free(s)` on the stack (line 118). -/
  | freeStack
deriving DecidableEq, Repr

/-- The heap outside the stack: the addresses of the live blocks, those that
`malloc` has returned to the caller and that nothing has freed yet. -/
abbrev Heap := List Nat

/-- The call `free(p)`: it does nothing on `NULL`, ends the life of a live
block, and is undefined on any other pointer. -/
def Heap.free (p : Ptr) (h : Heap) : Except Fault Heap :=
  match p with
  | none => .ok h
  | some a =>
    if a ∈ h then .ok (List.filter (fun b => b != a) h) else .error .invalidFree

/-- Successive calls of `free` on a list of pointers, in order. -/
def Heap.freeAll : List StackElement → Heap → Except Fault Heap
  | [], h => .ok h
  | e :: es, h =>
    match Heap.free e h with
    | .error err => .error err
    | .ok h1 => Heap.freeAll es h1

/-- What the functions a cleanup pointer may point to do: `code f e h` is the
effect on the heap `h` of the call `f(e)`. -/
abbrev Code := Nat → StackElement → Heap → Except Fault Heap

/-- The documented cleanup function `clearStruct` (stack.h:135-140): it writes
`((num*)e)->myNum = 0` and then calls `free(e)`. -/
def clearStruct (e : StackElement) (h : Heap) : Except Fault Heap :=
  match e with
  | none => .error .nullDeref
  | some a => if a ∈ h then Heap.free e h else .error .badAccess

/-- The calls of one complete iteration of the loop of `STACK_destroy`
(stack.c:105-113) for the node holding `e`, with `clear` the value of `s->clear`. -/
def STACK_destroy.bodyEvents (clear : Ptr) (e : StackElement) : List Event :=
  (match clear with
    | some f => [Event.call f e]
    | none => []) ++ [Event.freeElem e, Event.freeNode]

/-- One iteration of the loop body of `STACK_destroy` (stack.c:105-113) for the
node holding `e`, with `clear` the value of `s->clear`: the calls it makes, up
to and including one that is undefined, and the heap it leaves. -/
def STACK_destroy.body (code : Code) (clear : Ptr) (e : StackElement) (h : Heap) :
    List Event × Except Fault Heap :=
  match clear with
  | some f =>
    match code f e h with
    | .error err => ([Event.call f e], .error err)
    | .ok h1 =>
      match Heap.free e h1 with
      | .error err => ([Event.call f e, Event.freeElem e], .error err)
      | .ok h2 => ([Event.call f e, Event.freeElem e, Event.freeNode], .ok h2)
  | none =>
    match Heap.free e h with
    | .error err => ([Event.freeElem e], .error err)
    | .ok h2 => ([Event.freeElem e, Event.freeNode], .ok h2)

/-- The `while` loop of `STACK_destroy` (stack.c:104-114): starting with
`s->top = top`, the calls made so far being `tr`, it returns the value of
`s->top` when it stops, the calls, and the heap or the fault that stopped it. -/
def STACK_destroy.loop (code : Code) (clear : Ptr) :
    sNodePtr → List Event → Heap → sNodePtr × List Event × Except Fault Heap
  | .null, tr, h => (.null, tr, .ok h)
  | .node e nx, tr, h =>
    match STACK_destroy.body code clear e h with
    | (ev, .error err) => (nx, tr ++ ev, .error err)
    | (ev, .ok h1) => STACK_destroy.loop code clear nx (tr ++ ev) h1

/-- Function `STACK_destroy` (stack.c:102-120): the calls it makes, and either
the fault that stops it or the content of `*s` as written by lines 115-117,
just before `free(s)`, with the heap it leaves. There is no null guard: a
`NULL` stack is dereferenced at line 104. -/
def STACK_destroy (code : Code) (s : Option STACK) (h : Heap) :
    List Event × Except Fault (STACK × Heap) :=
  match s with
  | none => ([], .error .nullDeref)
  | some st =>
    match STACK_destroy.loop code st.clear st.top [] h with
    | (_, tr, .error err) => (tr, .error err)
    | (top1, tr, .ok h1) =>
      let st1 : STACK := { st with top := top1 }
      let st2 : STACK := { st1 with count := CInt.zero }
      let st3 : STACK := { st2 with clear := NULL }
      let st4 : STACK := { st3 with top := .null }
      (tr ++ [Event.freeStack], .ok (st4, h1))

/-- The data-model invariant of a stack: `count` is the number of nodes
reachable from `top`, and `top` is null exactly when `count` is `0`. -/
def STACK.Inv (st : STACK) : Prop :=
  st.count.val = (st.top.length : Int) ∧ (st.top = .null ↔ st.count.val = 0)

instance (st : STACK) : Decidable st.Inv := by
  unfold STACK.Inv; infer_instance

/-- The calls through the cleanup function pointer among a list of events:
each as the pair of the function called and its argument, in program order. -/
def Event.calls : List Event → List (Nat × StackElement)
  | [] => []
  | .call f e :: tr => (f, e) :: Event.calls tr
  | _ :: tr => Event.calls tr

/-- The calls `STACK_push(e1, s); ...; STACK_push(en, s);` for `es = [e1, ..., en]`. -/
def pushAll (es : List StackElement) (s : Option STACK) : Option STACK :=
  es.foldl (fun acc e => STACK_push e acc) s

/-- The result of `k` successive calls `STACK_pop(s)`: the returned elements in
call order and the final content of `*s`. -/
def popN : Nat → Option STACK → Except Fault (List StackElement × Option STACK)
  | 0, s => .ok ([], s)
  | k + 1, s =>
    match STACK_pop s with
    | .error f => .error f
    | .ok (e, s1) =>
      match popN k s1 with
      | .error f => .error f
      | .ok (es, s2) => .ok (e :: es, s2)

/-- A call of one of the operations on a live stack. -/
inductive Op where
  | push (e : StackElement)
  | pop
  | consult
  | getSize
  | setClearFunction (f : Ptr)
deriving DecidableEq, Repr

/-- The value a call returns to its caller. -/
inductive Ret where
  /-- Nothing: the operation returns `void`. -/
  | void
  /-- A `StackElement`. -/
  | elem (e : StackElement)
  /-- An `int`, as a mathematical integer. -/
  | size (n : Int)
deriving DecidableEq, Repr

/-- One call on the stack `s`: its return value and the new content of `*s`. -/
def step (s : Option STACK) : Op → Except Fault (Ret × Option STACK)
  | .push e => .ok (.void, STACK_push e s)
  | .pop => (STACK_pop s).map (fun r => (.elem r.1, r.2))
  | .consult => (STACK_consult s).map (fun r => (.elem r.1, r.2))
  | .getSize => .ok (.size (STACK_getSize s).val, s)
  | .setClearFunction f => .ok (.void, STACK_setClearFunction f s)

/-- A sequence of calls on the stack `s`: the returned values in call order and
the final content of `*s`. -/
def run (s : Option STACK) : List Op → Except Fault (List Ret × Option STACK)
  | [] => .ok ([], s)
  | op :: ops =>
    match step s op with
    | .error f => .error f
    | .ok (r, s1) =>
      match run s1 ops with
      | .error f => .error f
      | .ok (rs, s2) => .ok (r :: rs, s2)

/-- The reference list-based stack of the specification: push is cons, pop
removes and returns the head (or the absent value when empty), consult returns
the head (or the absent value), the size is the length. Configuring the
cleanup function does not touch the list. -/
def refStep (l : List StackElement) : Op → Ret × List StackElement
  | .push e => (.void, e :: l)
  | .pop => (.elem (l.headD NULL), l.tail)
  | .consult => (.elem (l.headD NULL), l)
  | .getSize => (.size l.length, l)
  | .setClearFunction _ => (.void, l)

/-- A sequence of calls on the reference stack. -/
def refRun (l : List StackElement) : List Op → List Ret × List StackElement
  | [] => ([], l)
  | op :: ops =>
    let r := refStep l op
    let rest := refRun r.2 ops
    (r.1 :: rest.1, rest.2)

/-- The number of stored elements after a call on a stack storing `d` elements. -/
def Op.depthAfter (d : Nat) : Op → Nat
  | .push _ => d + 1
  | .pop => d - 1
  | _ => d

/-- The largest number of elements stored at any point of a sequence of calls
that starts on a stack storing `d` elements. -/
def maxDepth (d : Nat) : List Op → Nat
  | [] => d
  | op :: ops => max d (maxDepth (op.depthAfter d) ops)

/-- The stack reached from a fresh one by pushing `2^31 - 1` null elements. -/
def fullStack : Option STACK :=
  pushAll (List.replicate 2147483647 NULL) (STACK_createStack true)

/-- The pointers released among a list of events, in program order: the
argument of every `free(n->stackElem)`, and the argument of every call of a
cleanup function that frees its argument, as the documented `clearStruct`
(stack.h:135-140) does; `clearFrees f` says whether the function `f` does. -/
def Event.released (clearFrees : Nat → Bool) : List Event → List StackElement
  | [] => []
  | .call f e :: tr =>
    (if clearFrees f then [e] else []) ++ Event.released clearFrees tr
  | .freeElem e :: tr => e :: Event.released clearFrees tr
  | _ :: tr => Event.released clearFrees tr

/-- The calls to `malloc`, to `free` and through `clear` that one call of an
operation makes on the stack `s` (stack.c:57-100): the node allocation of
`STACK_push` on a present stack, and nothing else. -/
def Op.events (s : Option STACK) : Op → List Event
  | .push _ =>
    match s with
    | some _ => [Event.malloc]
    | none => []
  | .pop => []
  | .consult => []
  | .getSize => []
  | .setClearFunction _ => []

/-- The calls to `malloc`, to `free` and through `clear` made by a sequence of
calls on the stack `s`, up to its end or to the first call that faults. -/
def runEvents (s : Option STACK) : List Op → List Event
  | [] => []
  | op :: ops =>
    match step s op with
    | .error _ => Op.events s op
    | .ok (_, s1) => Op.events s op ++ runEvents s1 ops

/-- Whether a call is a call of `STACK_setClearFunction`. -/
def Op.setsClear : Op → Bool
  | .setClearFunction _ => true
  | _ => false

/-- The calls to `malloc`, to `free` and through `clear` that
`STACK_createStack` makes (stack.c:42-55): its one allocation, when it succeeds. -/
def STACK_createStack.events (mallocOk : Bool) : List Event :=
  if mallocOk = false then [] else [Event.malloc]

/-! ## Basic facts -/

theorem CInt.wrap_val_of_range (x : Int) (h1 : -2147483648 ≤ x) (h2 : x ≤ 2147483647) :
    (CInt.wrap x).val = x := by
  simp only [CInt.wrap]; omega

theorem sNodePtr.length_eq_zero_iff (p : sNodePtr) : p.length = 0 ↔ p = .null := by
  cases p <;> simp [sNodePtr.length]

theorem sNodePtr.length_elems (p : sNodePtr) : p.elems.length = p.length := by
  induction p with
  | null => rfl
  | node e nx ih => simp [sNodePtr.elems, sNodePtr.length, ih]

theorem STACK.Inv_iff (st : STACK) : st.Inv ↔ st.count.val = (st.top.length : Int) := by
  constructor
  · exact fun h => h.1
  · intro h
    refine ⟨h, ?_⟩
    rw [h, ← sNodePtr.length_eq_zero_iff]
    omega

theorem STACK_push_some (e : StackElement) (st : STACK) :
    STACK_push e (some st)
      = some ⟨.node e st.top, CInt.wrap (st.count.val + 1), st.clear⟩ := rfl

/-- Pushing onto a stack that satisfies the invariant and holds fewer than
`2^31 - 1` elements. -/
theorem STACK_push_of_Inv (e : StackElement) (st : STACK) (h : st.Inv)
    (hlt : st.count.val < 2147483647) :
    ∃ st1, STACK_push e (some st) = some st1 ∧ st1.Inv ∧ st1.top = .node e st.top ∧
      st1.count.val = st.count.val + 1 ∧ st1.clear = st.clear := by
  have hc := (STACK.Inv_iff st).mp h
  have hw : (CInt.wrap (st.count.val + 1)).val = st.count.val + 1 :=
    CInt.wrap_val_of_range _ (by omega) (by omega)
  refine ⟨_, STACK_push_some e st, ?_, rfl, hw, rfl⟩
  rw [STACK.Inv_iff]
  show (CInt.wrap (st.count.val + 1)).val = ((st.top.length + 1 : Nat) : Int)
  rw [hw, hc]; push_cast; rfl

/-- Popping from a stack that satisfies the invariant. -/
theorem STACK_pop_of_Inv (st : STACK) (h : st.Inv) :
    ∃ st1, STACK_pop (some st) = .ok (st.top.elems.headD NULL, some st1) ∧ st1.Inv ∧
      st1.top.elems = st.top.elems.tail ∧ st1.clear = st.clear := by
  have hc := (STACK.Inv_iff st).mp h
  cases ht : st.top with
  | null =>
    have h0 : st.count.val = 0 := by rw [hc, ht]; rfl
    refine ⟨st, ?_, h, ?_, rfl⟩
    · simp [STACK_pop, h0, sNodePtr.elems]
    · simp [ht, sNodePtr.elems]
  | node e nx =>
    have hlen : (st.count.val : Int) = (nx.length : Int) + 1 := by
      rw [hc, ht]; simp [sNodePtr.length]
    have hpos : st.count.val > 0 := by omega
    have hhi := st.count.property.2
    have hw : (CInt.wrap (st.count.val - 1)).val = st.count.val - 1 :=
      CInt.wrap_val_of_range _ (by omega) (by omega)
    refine ⟨⟨nx, CInt.wrap (st.count.val - 1), st.clear⟩, ?_, ?_, ?_, rfl⟩
    · simp [STACK_pop, hpos, ht, sNodePtr.elems]
    · rw [STACK.Inv_iff]; simp only [hw]; omega
    · simp [sNodePtr.elems]

theorem pushAll_cons (e : StackElement) (es : List StackElement) (s : Option STACK) :
    pushAll (e :: es) s = pushAll es (STACK_push e s) := rfl

/-- Pushing a list of elements onto a stack that satisfies the invariant, when
the result holds at most `2^31 - 1` elements. -/
theorem pushAll_of_Inv (es : List StackElement) (st : STACK) (h : st.Inv)
    (hb : st.count.val + es.length ≤ 2147483647) :
    ∃ st1, pushAll es (some st) = some st1 ∧ st1.Inv ∧
      st1.top.elems = es.reverse ++ st.top.elems ∧ st1.clear = st.clear := by
  induction es generalizing st with
  | nil => exact ⟨st, rfl, h, by simp, rfl⟩
  | cons e es ih =>
    simp only [List.length_cons, Nat.cast_add, Nat.cast_one] at hb
    obtain ⟨st1, h1, hi1, ht1, hc1, hcl1⟩ := STACK_push_of_Inv e st h (by omega)
    obtain ⟨st2, h2, hi2, ht2, hcl2⟩ := ih st1 hi1 (by omega)
    refine ⟨st2, ?_, hi2, ?_, ?_⟩
    · rw [pushAll_cons, h1, h2]
    · rw [ht2, ht1]; simp [sNodePtr.elems]
    · rw [hcl2, hcl1]

/-- Pushing a list of elements, whatever its length: `count` is the wrapped sum
and the chain grows by one node per element. -/
theorem pushAll_count (es : List StackElement) (st : STACK) :
    ∃ st1, pushAll es (some st) = some st1 ∧
      st1.count = CInt.wrap (st.count.val + es.length) ∧
      st1.top.length = st.top.length + es.length ∧ st1.clear = st.clear := by
  induction es generalizing st with
  | nil =>
    refine ⟨st, rfl, ?_, rfl, rfl⟩
    apply Subtype.ext
    have := st.count.property
    simp only [CInt.wrap, List.length_nil, Nat.cast_zero, add_zero]
    omega
  | cons e es ih =>
    obtain ⟨st2, h2, hc2, hl2, hcl2⟩ := ih ⟨.node e st.top, CInt.wrap (st.count.val + 1), st.clear⟩
    refine ⟨st2, ?_, ?_, ?_, hcl2⟩
    · rw [pushAll_cons, STACK_push_some, h2]
    · rw [hc2]
      apply Subtype.ext
      simp only [CInt.wrap, List.length_cons, Nat.cast_add, Nat.cast_one]
      omega
    · rw [hl2]; simp only [sNodePtr.length, List.length_cons]; omega

/-- Popping `k` times from a stack that satisfies the invariant: the stored
elements from the top down, then `NULL` for every pop made on the empty stack. -/
theorem popN_of_Inv (k : Nat) (st : STACK) (h : st.Inv) :
    ∃ st1, popN k (some st) = .ok
        (st.top.elems.take k ++ List.replicate (k - st.top.elems.length) NULL, some st1) ∧
      st1.Inv ∧ st1.top.elems = st.top.elems.drop k ∧ st1.clear = st.clear := by
  induction k generalizing st with
  | zero => exact ⟨st, by simp [popN], h, by simp, rfl⟩
  | succ k ih =>
    obtain ⟨st1, h1, hi1, ht1, hcl1⟩ := STACK_pop_of_Inv st h
    obtain ⟨st2, h2, hi2, ht2, hcl2⟩ := ih st1 hi1
    refine ⟨st2, ?_, hi2, ?_, ?_⟩
    · simp only [popN, h1, h2, ht1]
      cases hl : st.top.elems with
      | nil => simp [List.replicate_succ]
      | cons a l => simp
    · rw [ht2, ht1]; simp
    · rw [hcl2, hcl1]

theorem STACK_createStack_Inv :
    ∃ st, STACK_createStack true = some st ∧ st.Inv ∧ st.top = .null ∧ st.clear = NULL :=
  ⟨⟨.null, CInt.zero, NULL⟩, rfl, by decide, rfl, rfl⟩

theorem Event.calls_append (a b : List Event) :
    Event.calls (a ++ b) = Event.calls a ++ Event.calls b := by
  induction a with
  | nil => rfl
  | cons x xs ih => cases x <;> simp [Event.calls, ih]

/-- The state `fullStack` is a present stack that satisfies the invariant and
whose `count` is `2^31 - 1`. -/
theorem fullStack_spec :
    ∃ st, fullStack = some st ∧ st.Inv ∧ st.count.val = 2147483647 ∧ st.clear = NULL := by
  obtain ⟨st0, h0, hi0, ht0, hc0⟩ := STACK_createStack_Inv
  have hb : st0.count.val + ((List.replicate 2147483647 NULL).length : Int) ≤ 2147483647 := by
    rw [hi0.1, ht0, List.length_replicate]; simp only [sNodePtr.length]; omega
  obtain ⟨st1, h1, hi1, ht1, hcl1⟩ := pushAll_of_Inv _ st0 hi0 hb
  refine ⟨st1, ?_, hi1, ?_, by rw [hcl1, hc0]⟩
  · rw [fullStack, h0, h1]
  · rw [hi1.1, ← sNodePtr.length_elems, ht1, List.length_append, List.length_reverse,
      List.length_replicate, ht0]
    rfl

/-- Consulting a stack that satisfies the invariant. -/
theorem STACK_consult_of_Inv (st : STACK) (h : st.Inv) :
    STACK_consult (some st) = .ok (st.top.elems.headD NULL, some st) := by
  have hc := (STACK.Inv_iff st).mp h
  cases ht : st.top with
  | null =>
    have h0 : st.count.val = 0 := by rw [hc, ht]; rfl
    simp [STACK_consult, h0, sNodePtr.elems]
  | node e nx =>
    have hpos : st.count.val > 0 := by
      rw [hc, ht]; simp only [sNodePtr.length]; omega
    simp [STACK_consult, hpos, ht, sNodePtr.elems]

/-- One call on a stack that satisfies the invariant, a push being made only
below `2^31 - 1` elements: the call does not fault, returns what the reference
stack returns, and leads to a stack that satisfies the invariant and stores
what the reference stack stores. -/
theorem step_of_Inv (st : STACK) (op : Op) (h : st.Inv)
    (hb : ∀ e, op = .push e → st.count.val < 2147483647) :
    ∃ st1, step (some st) op = .ok ((refStep st.top.elems op).1, some st1) ∧ st1.Inv ∧
      st1.top.elems = (refStep st.top.elems op).2 := by
  cases op with
  | push e =>
    obtain ⟨st1, h1, hi1, ht1, _, _⟩ := STACK_push_of_Inv e st h (hb e rfl)
    exact ⟨st1, by simp [step, h1, refStep], hi1, by simp [ht1, sNodePtr.elems, refStep]⟩
  | pop =>
    obtain ⟨st1, h1, hi1, ht1, _⟩ := STACK_pop_of_Inv st h
    exact ⟨st1, by simp [step, h1, refStep, Except.map], hi1, by simp [ht1, refStep]⟩
  | consult =>
    exact ⟨st, by simp [step, STACK_consult_of_Inv st h, refStep, Except.map], h, rfl⟩
  | getSize =>
    refine ⟨st, ?_, h, rfl⟩
    simp only [step, STACK_getSize, refStep, h.1, sNodePtr.length_elems]
  | setClearFunction f =>
    refine ⟨⟨st.top, st.count, f⟩, rfl, ?_, rfl⟩
    rw [STACK.Inv_iff]; exact h.1

theorem le_maxDepth (d : Nat) (ops : List Op) : d ≤ maxDepth d ops := by
  cases ops with
  | nil => exact le_refl _
  | cons op ops => exact le_max_left _ _

theorem Op.depthAfter_eq (l : List StackElement) (op : Op) :
    op.depthAfter l.length = (refStep l op).2.length := by
  cases op <;> simp [Op.depthAfter, refStep]

/-- A sequence of calls on a stack that satisfies the invariant, during which
at most `2^31 - 1` elements are stored: it does not fault, returns what the
reference stack returns and ends in a stack that satisfies the invariant. -/
theorem run_of_Inv (ops : List Op) (st : STACK) (h : st.Inv)
    (hb : maxDepth st.top.elems.length ops ≤ 2147483647) :
    ∃ st1, run (some st) ops = .ok ((refRun st.top.elems ops).1, some st1) ∧ st1.Inv ∧
      st1.top.elems = (refRun st.top.elems ops).2 := by
  induction ops generalizing st with
  | nil => exact ⟨st, rfl, h, rfl⟩
  | cons op ops ih =>
    have hb2 : maxDepth (op.depthAfter st.top.elems.length) ops ≤ 2147483647 :=
      le_trans (le_max_right _ _) hb
    have hb1 : op.depthAfter st.top.elems.length ≤ 2147483647 :=
      le_trans (le_maxDepth _ _) hb2
    have hpush : ∀ e, op = .push e → st.count.val < 2147483647 := by
      rintro e rfl
      simp only [Op.depthAfter] at hb1
      rw [h.1, ← sNodePtr.length_elems]
      omega
    obtain ⟨st1, h1, hi1, ht1⟩ := step_of_Inv st op h hpush
    rw [Op.depthAfter_eq, ← ht1] at hb2
    obtain ⟨st2, h2, hi2, ht2⟩ := ih st1 hi1 hb2
    refine ⟨st2, ?_, hi2, ?_⟩
    · simp only [run, h1, h2, refRun, ht1]
    · simp only [ht2, refRun, ht1]

theorem run_append (s s1 s2 : Option STACK) (a b : List Op) (ra rb : List Ret)
    (ha : run s a = .ok (ra, s1)) (hb : run s1 b = .ok (rb, s2)) :
    run s (a ++ b) = .ok (ra ++ rb, s2) := by
  induction a generalizing s ra with
  | nil =>
    simp only [run, Except.ok.injEq, Prod.mk.injEq] at ha
    obtain ⟨rfl, rfl⟩ := ha
    simpa using hb
  | cons op ops ih =>
    simp only [run] at ha
    cases hs : step s op with
    | error f => simp [hs] at ha
    | ok p =>
      obtain ⟨r, s3⟩ := p
      simp only [hs] at ha
      cases hr : run s3 ops with
      | error f => simp [hr] at ha
      | ok q =>
        obtain ⟨rs, s4⟩ := q
        simp only [hr, Except.ok.injEq, Prod.mk.injEq] at ha
        obtain ⟨rfl, rfl⟩ := ha
        rw [List.cons_append]
        simp only [run, hs, ih s3 rs hr]
        rfl

theorem run_pushes (n : Nat) (e : StackElement) (s : Option STACK) :
    run s (List.replicate n (Op.push e))
      = .ok (List.replicate n Ret.void, pushAll (List.replicate n e) s) := by
  induction n generalizing s with
  | zero => rfl
  | succ n ih => simp only [List.replicate_succ, run, step, ih, pushAll_cons]

theorem refRun_append (l : List StackElement) (a b : List Op) :
    refRun l (a ++ b)
      = ((refRun l a).1 ++ (refRun (refRun l a).2 b).1, (refRun (refRun l a).2 b).2) := by
  induction a generalizing l with
  | nil => rfl
  | cons op ops ih =>
    rw [List.cons_append]
    simp only [refRun, ih]
    rfl

theorem refRun_pushes (n : Nat) (e : StackElement) (l : List StackElement) :
    (refRun l (List.replicate n (Op.push e))).1 = List.replicate n Ret.void ∧
    (refRun l (List.replicate n (Op.push e))).2.length = n + l.length := by
  induction n generalizing l with
  | zero => simp [refRun]
  | succ n ih =>
    obtain ⟨h1, h2⟩ := ih (e :: l)
    simp only [List.replicate_succ, refRun, refStep, h1, h2, List.length_cons]
    exact ⟨trivial, by omega⟩

theorem Event.released_append (cf : Nat → Bool) (a b : List Event) :
    Event.released cf (a ++ b) = Event.released cf a ++ Event.released cf b := by
  induction a with
  | nil => rfl
  | cons x xs ih => cases x <;> simp [Event.released, ih]

theorem Event.calls_flatMap_body_none (l : List StackElement) :
    Event.calls (l.flatMap (STACK_destroy.bodyEvents NULL)) = [] := by
  induction l with
  | nil => rfl
  | cons e es ih =>
    rw [List.flatMap_cons, Event.calls_append, ih]
    rfl

theorem Event.released_flatMap_body_none (cf : Nat → Bool) (l : List StackElement) :
    Event.released cf (l.flatMap (STACK_destroy.bodyEvents NULL)) = l := by
  induction l with
  | nil => rfl
  | cons e es ih =>
    rw [List.flatMap_cons, Event.released_append, ih]
    rfl

theorem Op.events_calls (cf : Nat → Bool) (s : Option STACK) (op : Op) :
    Event.calls (op.events s) = [] ∧ Event.released cf (op.events s) = [] := by
  cases op <;> cases s <;> exact ⟨rfl, rfl⟩

theorem runEvents_calls (cf : Nat → Bool) (s : Option STACK) (ops : List Op) :
    Event.calls (runEvents s ops) = [] ∧ Event.released cf (runEvents s ops) = [] := by
  induction ops generalizing s with
  | nil => exact ⟨rfl, rfl⟩
  | cons op ops ih =>
    obtain ⟨h1, h2⟩ := Op.events_calls cf s op
    simp only [runEvents]
    cases hs : step s op with
    | error f => exact ⟨h1, h2⟩
    | ok p =>
      obtain ⟨h3, h4⟩ := ih p.2
      simp only [Event.calls_append, Event.released_append, h1, h2, h3, h4, List.append_nil,
        and_self]

/-- A call other than `STACK_setClearFunction` leaves a stack present and does
not write `clear`. -/
theorem step_clear (st : STACK) (op : Op) (r : Ret) (s1 : Option STACK)
    (hop : op.setsClear = false) (h : step (some st) op = .ok (r, s1)) :
    ∃ st1, s1 = some st1 ∧ st1.clear = st.clear := by
  cases op with
  | push e =>
    simp only [step, STACK_push_some, Except.ok.injEq, Prod.mk.injEq] at h
    exact ⟨_, h.2.symm, rfl⟩
  | pop =>
    simp only [step, STACK_pop] at h
    split at h
    · cases ht : st.top with
      | null => simp [ht, Except.map] at h
      | node e nx =>
        simp only [ht, Except.map, Except.ok.injEq, Prod.mk.injEq] at h
        exact ⟨_, h.2.symm, rfl⟩
    · simp only [Except.map, Except.ok.injEq, Prod.mk.injEq] at h
      exact ⟨st, h.2.symm, rfl⟩
  | consult =>
    simp only [step, STACK_consult] at h
    split at h
    · cases ht : st.top with
      | null => simp [ht, Except.map] at h
      | node e nx =>
        simp only [ht, Except.map, Except.ok.injEq, Prod.mk.injEq] at h
        exact ⟨st, h.2.symm, rfl⟩
    · simp only [Except.map, Except.ok.injEq, Prod.mk.injEq] at h
      exact ⟨st, h.2.symm, rfl⟩
  | getSize =>
    simp only [step, Except.ok.injEq, Prod.mk.injEq] at h
    exact ⟨st, h.2.symm, rfl⟩
  | setClearFunction f => simp [Op.setsClear] at hop

/-- A sequence of calls without `STACK_setClearFunction` leaves a stack present
and does not write `clear`. -/
theorem run_clear (ops : List Op) (st : STACK) (rs : List Ret) (s1 : Option STACK)
    (hops : ∀ op ∈ ops, op.setsClear = false) (h : run (some st) ops = .ok (rs, s1)) :
    ∃ st1, s1 = some st1 ∧ st1.clear = st.clear := by
  induction ops generalizing st rs with
  | nil =>
    simp only [run, Except.ok.injEq, Prod.mk.injEq] at h
    exact ⟨st, h.2.symm, rfl⟩
  | cons op ops ih =>
    simp only [run] at h
    cases hs : step (some st) op with
    | error f => simp [hs] at h
    | ok p =>
      obtain ⟨r, s2⟩ := p
      obtain ⟨st2, rfl, hc2⟩ := step_clear st op r s2 (hops op (List.mem_cons_self _ _)) hs
      simp only [hs] at h
      cases hr : run (some st2) ops with
      | error f => simp [hr] at h
      | ok q =>
        obtain ⟨rs2, s3⟩ := q
        simp only [hr, Except.ok.injEq, Prod.mk.injEq] at h
        obtain ⟨_, rfl⟩ := h
        obtain ⟨st3, h3, hc3⟩ := ih st2 rs2
          (fun o ho => hops o (List.mem_cons_of_mem _ ho)) hr
        exact ⟨st3, h3, by rw [hc3, hc2]⟩

theorem count_freeNode_flatMap_body (clear : Ptr) (l : List StackElement) :
    (l.flatMap (STACK_destroy.bodyEvents clear)).count Event.freeNode = l.length := by
  induction l with
  | nil => rfl
  | cons e es ih =>
    rw [List.flatMap_cons, List.count_append, ih]
    cases clear <;> simp [STACK_destroy.bodyEvents, List.count_cons] <;> omega

theorem run_getSize (n : Nat) (s : Option STACK) :
    run s (List.replicate n Op.getSize)
      = .ok (List.replicate n (Ret.size (STACK_getSize s).val), s) := by
  induction n with
  | zero => rfl
  | succ n ih => simp only [List.replicate_succ, run, step, ih]

theorem Event.calls_flatMap_bodyEvents_some (f : Nat) (l : List StackElement) :
    Event.calls (l.flatMap (STACK_destroy.bodyEvents (some f))) = l.map (fun e => (f, e)) := by
  induction l with
  | nil => rfl
  | cons e es ih =>
    rw [List.flatMap_cons, Event.calls_append, ih]
    rfl

/-- An iteration of the loop body that completes has made the calls of a
complete iteration. -/
theorem STACK_destroy.body_ok (code : Code) (clear : Ptr) (e : StackElement) (h h1 : Heap)
    (ev : List Event) (hb : STACK_destroy.body code clear e h = (ev, .ok h1)) :
    ev = STACK_destroy.bodyEvents clear e := by
  cases clear with
  | none =>
    simp only [STACK_destroy.body] at hb
    cases hf : Heap.free e h with
    | error err => simp [hf] at hb
    | ok h2 =>
      simp only [hf, Prod.mk.injEq] at hb
      rw [← hb.1]; rfl
  | some f =>
    simp only [STACK_destroy.body] at hb
    cases hc : code f e h with
    | error err => simp [hc] at hb
    | ok h2 =>
      simp only [hc] at hb
      cases hf : Heap.free e h2 with
      | error err => simp [hf] at hb
      | ok h3 =>
        simp only [hf, Prod.mk.injEq] at hb
        rw [← hb.1]; rfl

/-- With a cleanup function configured, the first call of an iteration of the
loop body is the call of that function on the element. -/
theorem STACK_destroy.body_head (code : Code) (f : Nat) (e : StackElement) (h : Heap) :
    ∃ ev, (STACK_destroy.body code (some f) e h).1 = Event.call f e :: ev := by
  cases hc : code f e h with
  | error err => exact ⟨[], by simp [STACK_destroy.body, hc]⟩
  | ok h1 =>
    cases hf : Heap.free e h1 with
    | error err => exact ⟨[Event.freeElem e], by simp [STACK_destroy.body, hc, hf]⟩
    | ok h2 =>
      exact ⟨[Event.freeElem e, Event.freeNode], by simp [STACK_destroy.body, hc, hf]⟩

/-- With no cleanup function configured, an iteration of the loop body makes
no call through `clear`. -/
theorem STACK_destroy.body_none_calls (code : Code) (e : StackElement) (h : Heap) :
    Event.calls (STACK_destroy.body code NULL e h).1 = [] := by
  simp only [STACK_destroy.body]
  cases Heap.free e h <;> rfl

/-- The loop only adds calls to those made before it. -/
theorem STACK_destroy.loop_trace (code : Code) (clear : Ptr) (p : sNodePtr)
    (tr : List Event) (h : Heap) :
    ∃ rest, (STACK_destroy.loop code clear p tr h).2.1 = tr ++ rest := by
  induction p generalizing tr h with
  | null => exact ⟨[], by simp [STACK_destroy.loop]⟩
  | node e nx ih =>
    simp only [STACK_destroy.loop]
    cases hb : STACK_destroy.body code clear e h with
    | mk ev r =>
      cases r with
      | error err => exact ⟨ev, rfl⟩
      | ok h1 =>
        obtain ⟨rest, hr⟩ := ih (tr ++ ev) h1
        exact ⟨ev ++ rest, by simp only [hr, List.append_assoc]⟩

/-- With no cleanup function configured, the loop makes no call through `clear`. -/
theorem STACK_destroy.loop_none_calls (code : Code) (p : sNodePtr) (tr : List Event)
    (h : Heap) :
    Event.calls (STACK_destroy.loop code NULL p tr h).2.1 = Event.calls tr := by
  induction p generalizing tr h with
  | null => simp [STACK_destroy.loop]
  | node e nx ih =>
    have hn := STACK_destroy.body_none_calls code e h
    simp only [STACK_destroy.loop]
    cases hb : STACK_destroy.body code NULL e h with
    | mk ev r =>
      rw [hb] at hn
      cases r with
      | error err => simp only [Event.calls_append, hn, List.append_nil]
      | ok h1 => simp only [ih, Event.calls_append, hn, List.append_nil]

/-- A loop that completes ends with a null `top` and has made the calls of a
complete iteration for each node, from the top down. -/
theorem STACK_destroy.loop_ok (code : Code) (clear : Ptr) (p p1 : sNodePtr)
    (tr tr1 : List Event) (h h1 : Heap)
    (hl : STACK_destroy.loop code clear p tr h = (p1, tr1, .ok h1)) :
    p1 = .null ∧ tr1 = tr ++ p.elems.flatMap (STACK_destroy.bodyEvents clear) := by
  induction p generalizing tr h with
  | null =>
    simp only [STACK_destroy.loop, Prod.mk.injEq] at hl
    exact ⟨hl.1.symm, by simp [sNodePtr.elems, hl.2.1]⟩
  | node e nx ih =>
    simp only [STACK_destroy.loop] at hl
    cases hb : STACK_destroy.body code clear e h with
    | mk ev r =>
      cases r with
      | error err => simp [hb] at hl
      | ok h2 =>
        simp only [hb] at hl
        obtain ⟨hp, ht⟩ := ih (tr ++ ev) h2 hl
        refine ⟨hp, ?_⟩
        rw [ht, STACK_destroy.body_ok code clear e h h2 ev hb]
        simp only [sNodePtr.elems, List.flatMap_cons, List.append_assoc]

/-- The loop completes when the cleanup function configured, if any, leaves
the heap as it is and every `free` of an element is on `NULL` or a live block. -/
theorem STACK_destroy.loop_of_freeAll (code : Code) (clear : Ptr) (p : sNodePtr)
    (tr : List Event) (h h1 : Heap)
    (hc : ∀ g, clear = some g → ∀ e hp, code g e hp = .ok hp)
    (hf : Heap.freeAll p.elems h = .ok h1) :
    STACK_destroy.loop code clear p tr h
      = (.null, tr ++ p.elems.flatMap (STACK_destroy.bodyEvents clear), .ok h1) := by
  induction p generalizing tr h with
  | null =>
    simp only [sNodePtr.elems, Heap.freeAll, Except.ok.injEq] at hf
    simp [STACK_destroy.loop, sNodePtr.elems, hf]
  | node e nx ih =>
    simp only [sNodePtr.elems, Heap.freeAll] at hf
    cases hfe : Heap.free e h with
    | error err => simp [hfe] at hf
    | ok h2 =>
      simp only [hfe] at hf
      have hb : STACK_destroy.body code clear e h
          = (STACK_destroy.bodyEvents clear e, .ok h2) := by
        cases clear with
        | none => simp [STACK_destroy.body, hfe, STACK_destroy.bodyEvents]
        | some g => simp [STACK_destroy.body, hc g rfl, hfe, STACK_destroy.bodyEvents]
      simp only [STACK_destroy.loop, hb, ih _ _ hf, sNodePtr.elems, List.flatMap_cons,
        List.append_assoc]

/-- A call of `STACK_destroy` that completes has made the calls of a complete
iteration for each node, from the top down, then `free(s)`, and leaves a null
`top`, `count` 0 and a null `clear`. -/
theorem STACK_destroy_ok (code : Code) (st : STACK) (h : Heap) (tr : List Event)
    (r : STACK × Heap) (hd : STACK_destroy code (some st) h = (tr, .ok r)) :
    tr = st.top.elems.flatMap (STACK_destroy.bodyEvents st.clear) ++ [Event.freeStack] ∧
    r.1 = ⟨.null, CInt.zero, NULL⟩ := by
  simp only [STACK_destroy] at hd
  cases hl : STACK_destroy.loop code st.clear st.top [] h with
  | mk p1 q =>
    obtain ⟨tr1, res⟩ := q
    cases res with
    | error err => simp [hl] at hd
    | ok h1 =>
      simp only [hl, Prod.mk.injEq, Except.ok.injEq] at hd
      obtain ⟨_, ht⟩ := STACK_destroy.loop_ok code st.clear st.top p1 [] tr1 h h1 hl
      refine ⟨?_, ?_⟩
      · rw [← hd.1, ht, List.nil_append]
      · rw [← hd.2]

/-- The call of `STACK_destroy` completes when the cleanup function
configured, if any, leaves the heap as it is and every `free` of an element is
on `NULL` or a live block. -/
theorem STACK_destroy_of_freeAll (code : Code) (st : STACK) (h h1 : Heap)
    (hc : ∀ g, st.clear = some g → ∀ e hp, code g e hp = .ok hp)
    (hf : Heap.freeAll st.top.elems h = .ok h1) :
    STACK_destroy code (some st) h
      = (st.top.elems.flatMap (STACK_destroy.bodyEvents st.clear) ++ [Event.freeStack],
          .ok (⟨.null, CInt.zero, NULL⟩, h1)) := by
  simp only [STACK_destroy, STACK_destroy.loop_of_freeAll code st.clear st.top [] h h1 hc hf,
    List.nil_append]

/-- With a cleanup function configured, the first call `STACK_destroy` makes on
a non-empty stack is the call of that function on the top element. -/
theorem STACK_destroy_head (code : Code) (e : StackElement) (nx : sNodePtr) (count : CInt)
    (f : Nat) (h : Heap) :
    ∃ rest, (STACK_destroy code (some ⟨.node e nx, count, some f⟩) h).1
      = Event.call f e :: rest := by
  obtain ⟨ev, hev⟩ := STACK_destroy.body_head code f e h
  simp only [STACK_destroy, STACK_destroy.loop]
  cases hb : STACK_destroy.body code (some f) e h with
  | mk ev1 r =>
    rw [hb] at hev
    simp only at hev
    subst hev
    cases r with
    | error err => exact ⟨ev, rfl⟩
    | ok h1 =>
      obtain ⟨rest, hr⟩ := STACK_destroy.loop_trace code (some f) nx (Event.call f e :: ev) h1
      simp only [List.nil_append]
      cases hl : STACK_destroy.loop code (some f) nx (Event.call f e :: ev) h1 with
      | mk p1 q =>
        obtain ⟨tr1, res⟩ := q
        rw [hl] at hr
        simp only at hr
        cases res with
        | error err => exact ⟨ev ++ rest, by simp [hr]⟩
        | ok h2 => exact ⟨ev ++ rest ++ [Event.freeStack], by simp [hr]⟩

/-- With no cleanup function configured, `STACK_destroy` makes no call through
`clear`, whether it completes or not. -/
theorem STACK_destroy_none_calls (code : Code) (top : sNodePtr) (count : CInt) (h : Heap) :
    Event.calls (STACK_destroy code (some ⟨top, count, NULL⟩) h).1 = [] := by
  have hl := STACK_destroy.loop_none_calls code top [] h
  simp only [STACK_destroy]
  cases hq : STACK_destroy.loop code NULL top [] h with
  | mk p1 q =>
    obtain ⟨tr1, res⟩ := q
    rw [hq] at hl
    cases res with
    | error err => exact hl
    | ok h1 =>
      simp only [Event.calls_append]
      rw [show Event.calls tr1 = Event.calls [] from hl]
      rfl

/-! ## Claims -/

/-- C4 (amended): `STACK_consult` leaves the stack unchanged and returns exactly what an
immediately following `STACK_pop` returns (it faults exactly when the pop
faults); on an absent stack, and on a stack satisfying the invariant, that
value is the top element when there is one and `NULL` otherwise. -/
theorem STACK_consult_agrees_with_pop (s : Option STACK) :
    STACK_consult s = (STACK_pop s).map (fun r => (r.1, s)) ∧
    (s = none → STACK_consult s = .ok (NULL, s)) ∧
    (∀ st, s = some st → st.Inv →
      match st.top with
      | .null => STACK_consult s = .ok (NULL, s)
      | .node e _ => STACK_consult s = .ok (e, s)) := by
  refine ⟨?_, ?_, ?_⟩
  · cases s with
    | none => rfl
    | some st =>
      simp only [STACK_consult, STACK_pop]
      split
      · cases st.top <;> rfl
      · rfl
  · rintro rfl; rfl
  · rintro st rfl ⟨hc, hz⟩
    cases ht : st.top with
    | null =>
      have h0 : st.count.val = 0 := hz.mp ht
      simp [STACK_consult, h0]
    | node e nx =>
      have hpos : st.count.val > 0 := by
        rw [hc, ht]; simp only [sNodePtr.length]; omega
      simp [STACK_consult, hpos, ht]

/-- Witness for C4: a one-element stack. -/
theorem STACK_consult_agrees_with_pop_witness :
    STACK_consult (STACK_push (some 5) (STACK_createStack true))
      = .ok (some 5, STACK_push (some 5) (STACK_createStack true)) :=
  (STACK_consult_agrees_with_pop (STACK_push (some 5) (STACK_createStack true))).2.2
    ⟨.node (some 5) .null, CInt.wrap 1, NULL⟩ rfl (by decide)

/-- C6: the stack returned by a successful `STACK_createStack` has a null
`top`, `count` 0 and a null `clear`; `STACK_getSize` returns 0 on it and
`STACK_pop` and `STACK_consult` return `NULL`. -/
theorem STACK_createStack_empty :
    ∃ st : STACK, STACK_createStack true = some st ∧
      st.top = .null ∧ st.count.val = 0 ∧ st.clear = NULL ∧
      (STACK_getSize (some st)).val = 0 ∧
      STACK_pop (some st) = .ok (NULL, some st) ∧
      STACK_consult (some st) = .ok (NULL, some st) :=
  ⟨⟨.null, CInt.zero, NULL⟩, rfl, rfl, rfl, rfl, rfl, rfl, rfl⟩

/-- C7: on a present stack whose `count` is 0, `STACK_pop` and `STACK_consult`
return `NULL` without a fault and leave `top`, `count` and `clear` as they were. -/
theorem STACK_pop_consult_empty (st : STACK) (h : st.count.val = 0) :
    STACK_pop (some st) = .ok (NULL, some st) ∧
    STACK_consult (some st) = .ok (NULL, some st) := by
  simp [STACK_pop, STACK_consult, h]

/-- Witness for C7: an empty stack with a cleanup function configured. -/
theorem STACK_pop_consult_empty_witness :
    STACK_pop (some ⟨.null, CInt.zero, some 7⟩) = .ok (NULL, some ⟨.null, CInt.zero, some 7⟩) ∧
    STACK_consult (some ⟨.null, CInt.zero, some 7⟩)
      = .ok (NULL, some ⟨.null, CInt.zero, some 7⟩) :=
  STACK_pop_consult_empty ⟨.null, CInt.zero, some 7⟩ rfl

/-- C8: on a `NULL` stack `STACK_push` and `STACK_setClearFunction` do nothing,
`STACK_pop` and `STACK_consult` return `NULL` and `STACK_getSize` returns 0; on
a present stack `STACK_getSize` returns `count`. None of these faults. -/
theorem STACK_null_guards (e : StackElement) (f : Ptr) (st : STACK) :
    STACK_push e none = none ∧
    STACK_setClearFunction f none = none ∧
    STACK_pop none = .ok (NULL, none) ∧
    STACK_consult none = .ok (NULL, none) ∧
    (STACK_getSize none).val = 0 ∧
    STACK_getSize (some st) = st.count :=
  ⟨rfl, rfl, rfl, rfl, rfl, rfl⟩

/-- C1 (amended): for every list of at most `2^31 - 1` elements pushed in
order onto a fresh stack, `STACK_getSize` returns the number `n` of elements,
and `k ≤ n` successive `STACK_pop` calls return the last `k` elements pushed,
the most recent first, leaving the size at `n - k`. -/
theorem STACK_push_pop_lifo (es : List StackElement) (hn : es.length ≤ 2147483647) :
    (STACK_getSize (pushAll es (STACK_createStack true))).val = es.length ∧
    ∀ k, k ≤ es.length →
      ∃ s1, popN k (pushAll es (STACK_createStack true)) = .ok (es.reverse.take k, s1) ∧
        (STACK_getSize s1).val = (es.length : Int) - k := by
  obtain ⟨st0, h0, hi0, ht0, _⟩ := STACK_createStack_Inv
  have hc0 : st0.count.val = 0 := by rw [hi0.1, ht0]; rfl
  obtain ⟨st1, h1, hi1, ht1, _⟩ := pushAll_of_Inv es st0 hi0 (by rw [hc0]; omega)
  have hel : st1.top.elems = es.reverse := by rw [ht1, ht0]; simp [sNodePtr.elems]
  rw [h0, h1]
  refine ⟨?_, ?_⟩
  · show st1.count.val = _
    rw [hi1.1, ← sNodePtr.length_elems, hel, List.length_reverse]
  · intro k hk
    obtain ⟨st2, h2, hi2, ht2, _⟩ := popN_of_Inv k st1 hi1
    refine ⟨some st2, ?_, ?_⟩
    · rw [h2, hel, List.length_reverse, Nat.sub_eq_zero_of_le hk]; simp
    · show st2.count.val = _
      rw [hi2.1, ← sNodePtr.length_elems, ht2, hel, List.length_drop, List.length_reverse]
      omega

/-- Witness for C1: three elements pushed, two popped. -/
theorem STACK_push_pop_lifo_witness :
    ∃ s1, popN 2 (pushAll [some 1, some 2, some 3] (STACK_createStack true))
        = .ok ([some 1, some 2, some 3].reverse.take 2, s1) ∧
      (STACK_getSize s1).val = (([some 1, some 2, some 3] : List StackElement).length : Int) - (2 : Nat) :=
  (STACK_push_pop_lifo [some 1, some 2, some 3] (by decide)).2 2 (by decide)

/-- Counterexample to C1 as stated: after `2^31` pushes onto a fresh stack
`STACK_getSize` returns `-2^31`, not the number of elements pushed. -/
theorem STACK_push_pop_lifo_overflow :
    (STACK_getSize (pushAll (List.replicate 2147483648 NULL) (STACK_createStack true))).val
        = -2147483648 ∧
    (List.replicate 2147483648 NULL).length = 2147483648 := by
  obtain ⟨st0, h0, hi0, ht0, _⟩ := STACK_createStack_Inv
  have hc0 : st0.count.val = 0 := by rw [hi0.1, ht0]; rfl
  obtain ⟨st1, h1, hc1, _, _⟩ := pushAll_count (List.replicate 2147483648 NULL) st0
  refine ⟨?_, List.length_replicate _ _⟩
  rw [h0, h1]
  show st1.count.val = _
  rw [hc1, hc0, List.length_replicate]
  rfl

/-- C3 (amended): on a present stack that satisfies the invariant and holds
fewer than `2^31 - 1` elements, `STACK_push(e, s)` followed by `STACK_pop(s)`
returns `e` and leaves the stack exactly as it was before the push: same
`count`, same nodes, same `clear`. -/
theorem STACK_push_pop_roundtrip (e : StackElement) (st : STACK) (h : st.Inv)
    (hlt : st.count.val < 2147483647) :
    STACK_pop (STACK_push e (some st)) = .ok (e, some st) := by
  have hc := (STACK.Inv_iff st).mp h
  have hw : (CInt.wrap (st.count.val + 1)).val = st.count.val + 1 :=
    CInt.wrap_val_of_range _ (by omega) (by omega)
  have hpos : (CInt.wrap (st.count.val + 1)).val > 0 := by omega
  have hback : CInt.wrap ((CInt.wrap (st.count.val + 1)).val - 1) = st.count := by
    apply Subtype.ext
    rw [hw, CInt.wrap_val_of_range _ (by omega) (by omega)]
    omega
  simp only [STACK_push_some, STACK_pop, hpos, if_true, hback]

/-- Witness for C3: a push and a pop on a one-element stack. -/
theorem STACK_push_pop_roundtrip_witness :
    STACK_pop (STACK_push (some 8) (some ⟨.node (some 5) .null, CInt.wrap 1, some 3⟩))
      = .ok (some 8, some ⟨.node (some 5) .null, CInt.wrap 1, some 3⟩) :=
  STACK_push_pop_roundtrip (some 8) ⟨.node (some 5) .null, CInt.wrap 1, some 3⟩
    (by decide) (by decide)

/-- Counterexample to C3 as stated: the stack holding `2^31 - 1` elements
satisfies the invariant, yet a push of the non-null element `some 1` followed
by a pop returns `NULL` and leaves the pushed node and the wrapped `count`. -/
theorem STACK_push_pop_roundtrip_overflow :
    (∃ st, fullStack = some st ∧ st.Inv) ∧
    STACK_pop (STACK_push (some 1) fullStack) = .ok (NULL, STACK_push (some 1) fullStack) ∧
    (STACK_getSize (STACK_push (some 1) fullStack)).val = -2147483648 := by
  obtain ⟨st, hs, hi, hc, _⟩ := fullStack_spec
  have hw : (CInt.wrap (st.count.val + 1)).val = -2147483648 := by rw [hc]; rfl
  refine ⟨⟨st, hs, hi⟩, ?_, ?_⟩
  · rw [hs, STACK_push_some]
    simp only [STACK_pop, hw]
    rfl
  · rw [hs, STACK_push_some]
    exact hw

/-- C9: `STACK_push` stores a `NULL` element as it is. For a stack that is
absent or satisfies the invariant, `STACK_pop` returns `NULL` exactly when the
stack is absent, has no node, or has `NULL` in its top node. In the last case
the size was positive and the pop removes the node and decrements `count`; in
the empty case the size was 0 and the pop changes nothing. -/
theorem STACK_pop_null_ambiguity (s : Option STACK) (h : ∀ st, s = some st → st.Inv) :
    (∀ st, s = some st →
      ∃ st1, STACK_push NULL s = some st1 ∧ st1.top = .node NULL st.top) ∧
    (∃ v s1, STACK_pop s = .ok (v, s1) ∧
      (v = NULL ↔ s = none ∨ (∃ st, s = some st ∧ st.top = .null) ∨
        (∃ st nx, s = some st ∧ st.top = .node NULL nx))) ∧
    (∀ st nx, s = some st → st.top = .node NULL nx →
      (STACK_getSize s).val > 0 ∧
      ∃ st1, STACK_pop s = .ok (NULL, some st1) ∧ st1.top = nx ∧
        st1.count.val = st.count.val - 1 ∧ st1.clear = st.clear) ∧
    (∀ st, s = some st → st.top = .null →
      (STACK_getSize s).val = 0 ∧ STACK_pop s = .ok (NULL, s)) := by
  cases s with
  | none =>
    refine ⟨?_, ⟨NULL, none, rfl, by simp⟩, ?_, ?_⟩ <;> intros <;> simp_all
  | some st =>
    have hi := h st rfl
    have hc := (STACK.Inv_iff st).mp hi
    have hhi := st.count.property.2
    cases ht : st.top with
    | null =>
      have h0 : st.count.val = 0 := by rw [hc, ht]; rfl
      have hp : STACK_pop (some st) = .ok (NULL, some st) := by simp [STACK_pop, h0]
      refine ⟨?_, ⟨NULL, some st, hp, ?_⟩, ?_, ?_⟩
      · rintro st1 ⟨rfl⟩; exact ⟨_, STACK_push_some _ _, by rw [ht]⟩
      · simp [ht]
      · rintro st1 nx ⟨rfl⟩ h1; rw [ht] at h1; cases h1
      · rintro st1 ⟨rfl⟩ _; exact ⟨h0, hp⟩
    | node e nx =>
      have hlen : (st.count.val : Int) = (nx.length : Int) + 1 := by
        rw [hc, ht]; simp [sNodePtr.length]
      have hpos : st.count.val > 0 := by omega
      have hw : (CInt.wrap (st.count.val - 1)).val = st.count.val - 1 :=
        CInt.wrap_val_of_range _ (by omega) (by omega)
      have hp : STACK_pop (some st)
          = .ok (e, some ⟨nx, CInt.wrap (st.count.val - 1), st.clear⟩) := by
        simp [STACK_pop, hpos, ht]
      refine ⟨?_, ⟨e, _, hp, ?_⟩, ?_, ?_⟩
      · rintro st1 ⟨rfl⟩; exact ⟨_, STACK_push_some _ _, by rw [ht]⟩
      · simp [ht]
      · rintro st1 nx1 ⟨rfl⟩ h1
        rw [ht] at h1
        injection h1 with he hn
        subst he hn
        exact ⟨hpos, _, hp, rfl, hw, rfl⟩
      · rintro st1 ⟨rfl⟩ h1; rw [ht] at h1; cases h1

/-- Witness for C9: the stack holding the single element `NULL`. -/
theorem STACK_pop_null_ambiguity_witness :
    (STACK_getSize (STACK_push NULL (STACK_createStack true))).val > 0 ∧
    ∃ st1, STACK_pop (STACK_push NULL (STACK_createStack true)) = .ok (NULL, some st1) ∧
      st1.top = .null ∧
      st1.count.val = (⟨.node NULL .null, CInt.wrap 1, NULL⟩ : STACK).count.val - 1 ∧
      st1.clear = (⟨.node NULL .null, CInt.wrap 1, NULL⟩ : STACK).clear :=
  (STACK_pop_null_ambiguity (STACK_push NULL (STACK_createStack true))
    (by intro st hst; cases hst; decide)).2.2.1
    ⟨.node NULL .null, CInt.wrap 1, NULL⟩ .null rfl rfl

/-- C2 (amended): for every finite sequence of push / pop / consult / getSize
(and setClearFunction) calls on a fresh stack during which at most `2^31 - 1`
elements are stored, no call faults and every returned value is the one the
reference list-based stack returns. The documented example holds for all
element pointers `n1 .. n7`: six pushes give size 6 and top `n6`; pushing `n7`
gives size 7 and top `n7`; three pops return `n7`, `n6`, `n5` and leave size 4
and top `n4`; one more pop returns `n4` and leaves size 3. -/
theorem STACK_refines_list (ops : List Op) (hb : maxDepth 0 ops ≤ 2147483647) :
    (run (STACK_createStack true) ops).map (fun r => r.1) = .ok (refRun [] ops).1 ∧
    ∀ n1 n2 n3 n4 n5 n6 n7 : StackElement,
      (run (STACK_createStack true)
        [.push n1, .push n2, .push n3, .push n4, .push n5, .push n6, .getSize, .consult,
         .push n7, .getSize, .consult, .pop, .pop, .pop, .getSize, .consult,
         .pop, .getSize]).map (fun r => r.1)
      = .ok [.void, .void, .void, .void, .void, .void, .size 6, .elem n6,
         .void, .size 7, .elem n7, .elem n7, .elem n6, .elem n5, .size 4, .elem n4,
         .elem n4, .size 3] := by
  refine ⟨?_, fun n1 n2 n3 n4 n5 n6 n7 => rfl⟩
  obtain ⟨st0, h0, hi0, ht0, _⟩ := STACK_createStack_Inv
  have he : st0.top.elems = [] := by rw [ht0]; rfl
  obtain ⟨st1, h1, _, _⟩ := run_of_Inv ops st0 hi0 (by rw [he]; exact hb)
  rw [h0, h1, he]
  rfl

/-- Witness for C2: a push, a size query and two pops, the second on the
empty stack. -/
theorem STACK_refines_list_witness :
    (run (STACK_createStack true) [.push (some 1), .getSize, .pop, .pop]).map (fun r => r.1)
      = .ok (refRun [] [.push (some 1), .getSize, .pop, .pop]).1 :=
  (STACK_refines_list [.push (some 1), .getSize, .pop, .pop] (by decide)).1

/-- Counterexample to C2 as stated: after `2^31` pushes on a fresh stack,
`STACK_getSize` returns `-2^31` where the reference stack returns its length
`2^31`. -/
theorem STACK_refines_list_overflow :
    (∃ s1, run (STACK_createStack true)
        (List.replicate 2147483648 (Op.push NULL) ++ [Op.getSize])
      = .ok (List.replicate 2147483648 Ret.void ++ [Ret.size (-2147483648)], s1)) ∧
    (refRun [] (List.replicate 2147483648 (Op.push NULL) ++ [Op.getSize])).1
      = List.replicate 2147483648 Ret.void ++ [Ret.size 2147483648] := by
  constructor
  · obtain ⟨st0, h0, hi0, ht0, _⟩ := STACK_createStack_Inv
    have hc0 : st0.count.val = 0 := by rw [hi0.1, ht0]; rfl
    obtain ⟨st1, h1, hc1, _, _⟩ := pushAll_count (List.replicate 2147483648 NULL) st0
    have hv : st1.count.val = -2147483648 := by
      rw [hc1, hc0, List.length_replicate]; rfl
    refine ⟨some st1, ?_⟩
    apply run_append _ (some st1) _ _ _ _ _ (by rw [run_pushes, h0, h1])
    simp only [run, step, STACK_getSize, hv]
  · obtain ⟨h1, h2⟩ := refRun_pushes 2147483648 NULL []
    rw [refRun_append, h1]
    generalize (refRun [] (List.replicate 2147483648 (Op.push NULL))).2 = l at h2
    have h3 : (l.length : Int) = 2147483648 := by rw [h2]; rfl
    show _ ++ [Ret.size (l.length : Int)] = _
    rw [h3]

/-- C5 (amended): the invariant (`count` is the number of nodes reachable from
`top`, and `top` is null exactly when `count` is 0) holds for the stack
returned by `STACK_createStack`; from a stack satisfying it, each of pop,
consult, getSize and setClearFunction, and push when the stack holds fewer
than `2^31 - 1` elements, runs without fault and leads to a stack satisfying
it; hence it holds after every sequence of calls on a fresh stack during which
at most `2^31 - 1` elements are stored. -/
theorem STACK_Inv_preserved :
    (∃ st, STACK_createStack true = some st ∧ st.Inv) ∧
    (∀ st op, st.Inv → (∀ e, op = Op.push e → st.count.val < 2147483647) →
      ∃ r st1, step (some st) op = .ok (r, some st1) ∧ st1.Inv) ∧
    (∀ ops, maxDepth 0 ops ≤ 2147483647 →
      ∃ rs st1, run (STACK_createStack true) ops = .ok (rs, some st1) ∧ st1.Inv) := by
  obtain ⟨st0, h0, hi0, ht0, _⟩ := STACK_createStack_Inv
  refine ⟨⟨st0, h0, hi0⟩, ?_, ?_⟩
  · intro st op hi hb
    obtain ⟨st1, h1, hi1, _⟩ := step_of_Inv st op hi hb
    exact ⟨_, st1, h1, hi1⟩
  · intro ops hb
    have he : st0.top.elems = [] := by rw [ht0]; rfl
    obtain ⟨st1, h1, hi1, _⟩ := run_of_Inv ops st0 hi0 (by rw [he]; exact hb)
    exact ⟨_, st1, by rw [h0, h1], hi1⟩

/-- Witness for C5: two pushes, a pop, and a cleanup function configured on a
fresh stack. -/
theorem STACK_Inv_preserved_witness :
    ∃ rs st1, run (STACK_createStack true)
        [.push (some 1), .push NULL, .pop, .setClearFunction (some 4), .consult, .getSize]
      = .ok (rs, some st1) ∧ st1.Inv :=
  STACK_Inv_preserved.2.2
    [.push (some 1), .push NULL, .pop, .setClearFunction (some 4), .consult, .getSize]
    (by decide)

/-- Counterexample to C5 as stated: the stack reached from a fresh one by
`2^31 - 1` pushes satisfies the invariant, and one more `STACK_push` leads to a
stack with `2^31` nodes and `count = -2^31`, which violates it. -/
theorem STACK_Inv_broken_by_push :
    (∃ st, fullStack = some st ∧ st.Inv) ∧
    (∃ st1, STACK_push NULL fullStack = some st1 ∧ st1.count.val = -2147483648 ∧
      st1.top.length = 2147483648 ∧ ¬ st1.Inv) := by
  obtain ⟨st, hs, hi, hc, _⟩ := fullStack_spec
  have hw : (CInt.wrap (st.count.val + 1)).val = -2147483648 := by rw [hc]; rfl
  have hl : (st.top.length : Int) = 2147483647 := by rw [← hi.1, hc]
  have hl1 : (sNodePtr.node NULL st.top).length = 2147483648 := by
    simp only [sNodePtr.length]; omega
  refine ⟨⟨st, hs, hi⟩, _, by rw [hs, STACK_push_some], hw, hl1, ?_⟩
  intro hbad
  have h1 : (CInt.wrap (st.count.val + 1)).val
      = ((sNodePtr.node NULL st.top).length : Int) := hbad.1
  have hl2 : ((sNodePtr.node NULL st.top).length : Int) = 2147483648 := by
    simp only [sNodePtr.length]; push_cast; omega
  rw [hw, hl2] at h1
  omega

/-- C13: on a present stack, `STACK_setClearFunction(f, s)` makes `clear`
equal to `f` (so `NULL` when `f` is `NULL`, whatever was configured before)
and leaves `top`, `count` and the stored elements as they were. -/
theorem STACK_setClearFunction_frame (st : STACK) (f : Ptr) :
    (∃ st1, STACK_setClearFunction f (some st) = some st1 ∧
      st1.clear = f ∧ st1.top = st.top ∧ st1.count = st.count ∧
      st1.top.elems = st.top.elems) ∧
    STACK_setClearFunction NULL (some st) = some ⟨st.top, st.count, NULL⟩ :=
  ⟨⟨⟨st.top, st.count, f⟩, rfl, rfl, rfl, rfl, rfl⟩, rfl⟩

/-- C15: `STACK_getSize` does not write the stack, so `n` consecutive calls all
return the same value and leave the stack as it was. -/
theorem STACK_getSize_idempotent (s : Option STACK) (n : Nat) :
    step s .getSize = .ok (.size (STACK_getSize s).val, s) ∧
    run s (List.replicate n Op.getSize)
      = .ok (List.replicate n (Ret.size (STACK_getSize s).val), s) :=
  ⟨rfl, run_getSize n s⟩

/-- C16: on a present stack satisfying the invariant, `count > 0` implies that
`top` is not null, so neither `STACK_pop` nor `STACK_consult` reaches the
null dereference; outside the invariant (`count = 1`, `top` null) both do. -/
theorem STACK_pop_consult_no_fault (st : STACK) (h : st.Inv) :
    (st.count.val > 0 → st.top ≠ .null) ∧
    (∃ r, STACK_pop (some st) = .ok r) ∧
    (∃ r, STACK_consult (some st) = .ok r) ∧
    STACK_pop (some ⟨.null, CInt.wrap 1, NULL⟩) = .error .nullDeref ∧
    STACK_consult (some ⟨.null, CInt.wrap 1, NULL⟩) = .error .nullDeref := by
  refine ⟨?_, ?_, ⟨_, STACK_consult_of_Inv st h⟩, rfl, rfl⟩
  · intro hpos hnull
    have := h.2.mp hnull
    omega
  · obtain ⟨st1, h1, _⟩ := STACK_pop_of_Inv st h
    exact ⟨_, h1⟩

/-- Witness for C16: a one-element stack. -/
theorem STACK_pop_consult_no_fault_witness :
    ∃ r, STACK_pop (some ⟨.node (some 5) .null, CInt.wrap 1, NULL⟩) = .ok r :=
  (STACK_pop_consult_no_fault ⟨.node (some 5) .null, CInt.wrap 1, NULL⟩ (by decide)).2.1

/-- C19: on a present stack that satisfies the invariant and holds fewer than
`2^31 - 1` elements, the increment of `STACK_push` stays in the `int` range:
the new `count` is the old one plus one, is not negative and is the number of
nodes. -/
theorem STACK_push_count_no_wrap (e : StackElement) (st : STACK) (h : st.Inv)
    (hlt : st.top.length < 2147483647) :
    ∃ st1, STACK_push e (some st) = some st1 ∧
      st.count.val + 1 ≤ 2147483647 ∧
      st1.count.val = st.count.val + 1 ∧
      0 ≤ st1.count.val ∧
      st1.count.val = (st1.top.length : Int) := by
  have hc := (STACK.Inv_iff st).mp h
  obtain ⟨st1, h1, hi1, _, hc1, _⟩ := STACK_push_of_Inv e st h (by omega)
  exact ⟨st1, h1, by omega, hc1, by omega, hi1.1⟩

/-- Witness for C19: a push on a one-element stack. -/
theorem STACK_push_count_no_wrap_witness :
    ∃ st1, STACK_push (some 8) (some ⟨.node (some 5) .null, CInt.wrap 1, NULL⟩) = some st1 ∧
      (⟨.node (some 5) .null, CInt.wrap 1, NULL⟩ : STACK).count.val + 1 ≤ 2147483647 ∧
      st1.count.val = (⟨.node (some 5) .null, CInt.wrap 1, NULL⟩ : STACK).count.val + 1 ∧
      0 ≤ st1.count.val ∧
      st1.count.val = (st1.top.length : Int) :=
  STACK_push_count_no_wrap (some 8) ⟨.node (some 5) .null, CInt.wrap 1, NULL⟩
    (by decide) (by decide)

/-- Counterexample to C4 as stated: on the stack reached from a fresh one by
`2^31 - 1` pushes of `NULL` and one push of `some 1`, the top node holds
`some 1` and `count` is `-2^31`, and `STACK_consult` returns `NULL`, not the
top element. -/
theorem STACK_consult_overflow :
    ∃ st nx, STACK_push (some 1) fullStack = some st ∧
      st.top = .node (some 1) nx ∧ st.count.val = -2147483648 ∧
      STACK_consult (some st) = .ok (NULL, some st) := by
  obtain ⟨st0, hs, _, hc, _⟩ := fullStack_spec
  have hw : (CInt.wrap (st0.count.val + 1)).val = -2147483648 := by rw [hc]; rfl
  refine ⟨_, st0.top, by rw [hs, STACK_push_some], rfl, hw, ?_⟩
  simp only [STACK_consult, hw]
  rfl

/-- C10 (the code at the failing input): with the documented `clearStruct`
configured and a live block in the top node of a stack of two or more nodes,
`STACK_destroy` calls the cleanup once, then calls `free` on the block the
cleanup has freed (line 109) and stops there on that undefined call: one
cleanup call for at least two elements, and lines 115-117 are not reached. -/
theorem STACK_destroy_stops_after_first_call (a f : Nat) (e1 : StackElement)
    (nx : sNodePtr) (count : CInt) (h : Heap) :
    STACK_destroy (fun _ => clearStruct)
        (some ⟨.node (some a) (.node e1 nx), count, some f⟩) (a :: h)
      = ([Event.call f (some a), Event.freeElem (some a)], .error .invalidFree) ∧
    (Event.calls [Event.call f (some a), Event.freeElem (some a)]).length = 1 ∧
    2 ≤ (sNodePtr.node (some a) (.node e1 nx)).length := by
  refine ⟨?_, rfl, by simp [sNodePtr.length]⟩
  have hb : STACK_destroy.body (fun _ => clearStruct) (some f) (some a) (a :: h)
      = ([Event.call f (some a), Event.freeElem (some a)], .error .invalidFree) := by
    simp [STACK_destroy.body, clearStruct, Heap.free, List.mem_filter]
  simp only [STACK_destroy, STACK_destroy.loop, hb, List.nil_append]

/-- C11 (amended): on a stack with no cleanup function configured,
`STACK_destroy` makes no call through `clear`; when each stored element pointer
is `NULL` or a live block at the time it is freed, it calls `free` on the
stored element and then on the node, for every node from the top down, and
ends with `free` on the stack: every remaining element pointer is released once. -/
theorem STACK_destroy_without_clear (code : Code) (top : sNodePtr) (count : CInt)
    (cf : Nat → Bool) (h : Heap) :
    Event.calls (STACK_destroy code (some ⟨top, count, NULL⟩) h).1 = [] ∧
    ∀ h1, Heap.freeAll top.elems h = .ok h1 →
      ∃ tr, STACK_destroy code (some ⟨top, count, NULL⟩) h
          = (tr, .ok (⟨.null, CInt.zero, NULL⟩, h1)) ∧
        tr = top.elems.flatMap (fun e => [Event.freeElem e, Event.freeNode])
              ++ [Event.freeStack] ∧
        Event.released cf tr = top.elems := by
  refine ⟨STACK_destroy_none_calls code top count h, ?_⟩
  intro h1 hf
  refine ⟨_, STACK_destroy_of_freeAll code ⟨top, count, NULL⟩ h h1 (by simp) hf, rfl, ?_⟩
  rw [Event.released_append, Event.released_flatMap_body_none]
  simp [Event.released]

/-- Witness for C11: a stack of two live blocks and a `NULL` element. -/
theorem STACK_destroy_without_clear_witness :
    ∃ tr, STACK_destroy (fun _ => clearStruct)
          (some ⟨.node (some 2) (.node NULL (.node (some 1) .null)), CInt.wrap 3, NULL⟩) [1, 2]
        = (tr, .ok (⟨.null, CInt.zero, NULL⟩, [])) ∧
      tr = (sNodePtr.node (some 2) (.node NULL (.node (some 1) .null))).elems.flatMap
              (fun e => [Event.freeElem e, Event.freeNode]) ++ [Event.freeStack] ∧
      Event.released (fun _ => false) tr
        = (sNodePtr.node (some 2) (.node NULL (.node (some 1) .null))).elems :=
  (STACK_destroy_without_clear (fun _ => clearStruct)
    (.node (some 2) (.node NULL (.node (some 1) .null))) (CInt.wrap 3) (fun _ => false)
    [1, 2]).2 [] (by decide)

/-- Counterexample to C11 as stated: on the stack holding the one element
`some 5`, a live block, with no cleanup function configured, `STACK_destroy`
calls `free` on that element (line 109) before the node and the stack, and the
block is no longer live afterwards. -/
theorem STACK_destroy_without_clear_frees_element :
    STACK_destroy (fun _ => clearStruct) (STACK_push (some 5) (STACK_createStack true)) [5]
      = ([Event.freeElem (some 5), Event.freeNode, Event.freeStack],
          .ok (⟨.null, CInt.zero, NULL⟩, [])) ∧
    Event.released (fun _ => false)
        [Event.freeElem (some 5), Event.freeNode, Event.freeStack] = [some 5] := by
  constructor
  · decide
  · rfl

/-- C12 (the code at the failing input): with the documented `clearStruct`
configured and a live block in the top node, `STACK_destroy` calls the cleanup
on the element, which frees it, and then calls `free` on the same pointer
(line 109): the element is released twice, and the second release is undefined. -/
theorem STACK_destroy_releases_twice (a f : Nat) (nx : sNodePtr) (count : CInt) (h : Heap) :
    STACK_destroy (fun _ => clearStruct) (some ⟨.node (some a) nx, count, some f⟩) (a :: h)
      = ([Event.call f (some a), Event.freeElem (some a)], .error .invalidFree) ∧
    Event.released (fun _ => true) [Event.call f (some a), Event.freeElem (some a)]
      = [some a, some a] := by
  refine ⟨?_, rfl⟩
  have hb : STACK_destroy.body (fun _ => clearStruct) (some f) (some a) (a :: h)
      = ([Event.call f (some a), Event.freeElem (some a)], .error .invalidFree) := by
    simp [STACK_destroy.body, clearStruct, Heap.free, List.mem_filter]
  simp only [STACK_destroy, STACK_destroy.loop, hb, List.nil_append]

/-- C14: no sequence of push / pop / consult / getSize / setClearFunction
calls, on any stack and in particular after `STACK_createStack`, makes a call
through `clear` or releases an element, whatever cleanup function is
configured; `STACK_pop` hands the stored element pointer back as it is; a call
through `clear` does occur in `STACK_destroy` on a non-empty stack, as its
first call. -/
theorem STACK_ops_never_clear (s : Option STACK) (ops : List Op) (cf : Nat → Bool) :
    Event.calls (runEvents s ops) = [] ∧
    Event.released cf (runEvents s ops) = [] ∧
    Event.calls (STACK_createStack.events true ++ runEvents (STACK_createStack true) ops)
      = [] ∧
    Event.released cf
      (STACK_createStack.events true ++ runEvents (STACK_createStack true) ops) = [] ∧
    (∀ st e nx, s = some st → st.top = .node e nx → st.count.val > 0 →
      STACK_pop s = .ok (e, some ⟨nx, CInt.wrap (st.count.val - 1), st.clear⟩)) ∧
    (∀ (code : Code) e nx count f (h : Heap),
      (∃ rest, (STACK_destroy code (some ⟨.node e nx, count, some f⟩) h).1
        = Event.call f e :: rest) ∧
      (f, e) ∈ Event.calls (STACK_destroy code (some ⟨.node e nx, count, some f⟩) h).1) := by
  obtain ⟨h1, h2⟩ := runEvents_calls cf s ops
  obtain ⟨h3, h4⟩ := runEvents_calls cf (STACK_createStack true) ops
  refine ⟨h1, h2, ?_, ?_, ?_, ?_⟩
  · rw [Event.calls_append, h3]; rfl
  · rw [Event.released_append, h4]; rfl
  · rintro st e nx rfl ht hpos
    simp [STACK_pop, hpos, ht]
  · intro code e nx count f h
    obtain ⟨rest, hr⟩ := STACK_destroy_head code e nx count f h
    refine ⟨⟨rest, hr⟩, ?_⟩
    rw [hr]
    simp [Event.calls]

/-- Witness for C14: a pop on a two-element stack with a cleanup function
configured returns the top element pointer. -/
theorem STACK_ops_never_clear_witness :
    STACK_pop (some ⟨.node (some 2) (.node (some 1) .null), CInt.wrap 2, some 9⟩)
      = .ok (some 2, some ⟨.node (some 1) .null,
          CInt.wrap ((⟨.node (some 2) (.node (some 1) .null), CInt.wrap 2, some 9⟩ :
            STACK).count.val - 1),
          (⟨.node (some 2) (.node (some 1) .null), CInt.wrap 2, some 9⟩ : STACK).clear⟩) :=
  (STACK_ops_never_clear (some ⟨.node (some 2) (.node (some 1) .null), CInt.wrap 2, some 9⟩)
    [.pop] (fun _ => true)).2.2.2.2.1 _ (some 2) (.node (some 1) .null) rfl rfl (by decide)

/-- C17 (amended): with a cleanup function configured, every call of
`STACK_destroy` that completes has passed to the cleanup the stored elements
from the top down and has run its loop body once per node reachable from
`top`, whatever `count` is; on a stack satisfying the invariant that sequence
of arguments is what as many `STACK_pop` calls return. The call completes when
the cleanup leaves the heap as it is and each stored element pointer is `NULL`
or a live block at the time it is freed. -/
theorem STACK_destroy_order (code : Code) (top : sNodePtr) (count : CInt) (f : Nat)
    (h : Heap) :
    (∀ tr r, STACK_destroy code (some ⟨top, count, some f⟩) h = (tr, .ok r) →
      (Event.calls tr).map Prod.snd = top.elems ∧
      tr.count Event.freeNode = top.length ∧
      (∀ st : STACK, st.top = top → st.Inv →
        ∃ s1, popN top.length (some st) = .ok ((Event.calls tr).map Prod.snd, s1))) ∧
    (∀ h1, (∀ e hp, code f e hp = .ok hp) → Heap.freeAll top.elems h = .ok h1 →
      ∃ tr, STACK_destroy code (some ⟨top, count, some f⟩) h
        = (tr, .ok (⟨.null, CInt.zero, NULL⟩, h1))) := by
  constructor
  · intro tr r hd
    obtain ⟨ht, _⟩ := STACK_destroy_ok code ⟨top, count, some f⟩ h tr r hd
    have hcalls : (Event.calls tr).map Prod.snd = top.elems := by
      rw [ht, Event.calls_append, Event.calls_flatMap_bodyEvents_some]
      simp [Event.calls]
    refine ⟨hcalls, ?_, ?_⟩
    · rw [ht, List.count_append, count_freeNode_flatMap_body, sNodePtr.length_elems]
      simp [List.count_cons]
    · rintro st rfl hi
      obtain ⟨st1, h1, _⟩ := popN_of_Inv st.top.length st hi
      refine ⟨some st1, ?_⟩
      rw [h1, hcalls, sNodePtr.length_elems]
      simp [← sNodePtr.length_elems]
  · intro h1 hc hf
    exact ⟨_, STACK_destroy_of_freeAll code ⟨top, count, some f⟩ h h1
      (by rintro g ⟨rfl⟩; exact hc) hf⟩

/-- Witness for C17: a two-element stack of live blocks and a cleanup that
leaves the heap as it is. -/
theorem STACK_destroy_order_witness :
    ∃ tr, STACK_destroy (fun _ _ hp => .ok hp)
          (some ⟨.node (some 2) (.node (some 1) .null), CInt.wrap 2, some 9⟩) [1, 2]
        = (tr, .ok (⟨.null, CInt.zero, NULL⟩, [])) ∧
      ∃ s1, popN 2 (some ⟨.node (some 2) (.node (some 1) .null), CInt.wrap 2, some 9⟩)
        = .ok ((Event.calls tr).map Prod.snd, s1) :=
  match (STACK_destroy_order (fun _ _ hp => .ok hp) (.node (some 2) (.node (some 1) .null))
      (CInt.wrap 2) 9 [1, 2]).2 [] (fun _ _ => rfl) (by decide) with
  | ⟨tr, htr⟩ =>
    ⟨tr, htr, ((STACK_destroy_order (fun _ _ hp => .ok hp)
      (.node (some 2) (.node (some 1) .null)) (CInt.wrap 2) 9 [1, 2]).1 tr _ htr).2.2
      _ rfl (by decide)⟩

/-- Counterexample to C17 as stated. On the stack reached by `2^31 - 1` pushes
of `NULL` and one push of `some 1`, with a cleanup configured, the first
argument `STACK_destroy` passes is `some 1`, while `STACK_pop` returns `NULL`.
On a stack of two live blocks with the documented `clearStruct` configured,
`STACK_destroy` passes only the top element and stops on the `free` of line
109, while two pops return both elements. -/
theorem STACK_destroy_order_fails :
    (∃ st nx rest,
      STACK_setClearFunction (some 9) (STACK_push (some 1) fullStack) = some st ∧
      st.top = .node (some 1) nx ∧
      (STACK_destroy (fun _ _ hp => .ok hp) (some st) [1]).1 = Event.call 9 (some 1) :: rest ∧
      popN 1 (some st) = .ok ([NULL], some st)) ∧
    STACK_destroy (fun _ => clearStruct)
        (some ⟨.node (some 2) (.node (some 1) .null), CInt.wrap 2, some 9⟩) [1, 2]
      = ([Event.call 9 (some 2), Event.freeElem (some 2)], .error .invalidFree) ∧
    popN 2 (some ⟨.node (some 2) (.node (some 1) .null), CInt.wrap 2, some 9⟩)
      = .ok ([some 2, some 1], some ⟨.null, CInt.wrap 0, some 9⟩) := by
  refine ⟨?_, by decide, by decide⟩
  obtain ⟨st0, hs, _, hc, _⟩ := fullStack_spec
  have hw : (CInt.wrap (st0.count.val + 1)).val = -2147483648 := by rw [hc]; rfl
  obtain ⟨rest, hr⟩ := STACK_destroy_head (fun _ _ hp => .ok hp) (some 1) st0.top
    (CInt.wrap (st0.count.val + 1)) 9 [1]
  refine ⟨⟨.node (some 1) st0.top, CInt.wrap (st0.count.val + 1), some 9⟩, st0.top, rest,
    by rw [hs, STACK_push_some]; rfl, rfl, hr, ?_⟩
  simp only [popN, STACK_pop, hw]
  rfl

/-- C18: after `STACK_setClearFunction(f, s)`, every sequence of push / pop /
consult / getSize calls that returns leaves `clear` equal to `f`, so that
`STACK_destroy` then runs as on a stack whose cleanup is `f`; on a stack
satisfying the invariant the sequence does return while at most `2^31 - 1`
elements are stored. -/
theorem STACK_clear_unchanged (st : STACK) (f : Ptr) (ops : List Op)
    (hops : ∀ op ∈ ops, op.setsClear = false) :
    (∀ rs s1, run (STACK_setClearFunction f (some st)) ops = .ok (rs, s1) →
      ∃ st1, s1 = some st1 ∧ st1.clear = f ∧
        ∀ (code : Code) (h : Heap),
          STACK_destroy code s1 h = STACK_destroy code (some ⟨st1.top, st1.count, f⟩) h) ∧
    (st.Inv → maxDepth st.top.elems.length ops ≤ 2147483647 →
      ∃ rs st1, run (STACK_setClearFunction f (some st)) ops = .ok (rs, some st1) ∧
        st1.clear = f) := by
  constructor
  · intro rs s1 h
    obtain ⟨st1, rfl, hc⟩ := run_clear ops ⟨st.top, st.count, f⟩ rs s1 hops h
    have hc1 : st1.clear = f := hc
    refine ⟨st1, rfl, hc1, ?_⟩
    intro code hp
    rw [← hc1]
  · intro hi hb
    have hi1 : (⟨st.top, st.count, f⟩ : STACK).Inv := (STACK.Inv_iff _).mpr hi.1
    obtain ⟨st1, h1, _, _⟩ := run_of_Inv ops ⟨st.top, st.count, f⟩ hi1 hb
    obtain ⟨st2, h2, hc⟩ := run_clear ops ⟨st.top, st.count, f⟩ _ _ hops h1
    cases h2
    exact ⟨_, st1, h1, hc⟩

/-- Witness for C18: a push, a pop and a size query after configuring the
cleanup function `some 4` on an empty stack. -/
theorem STACK_clear_unchanged_witness :
    ∃ rs st1, run (STACK_setClearFunction (some 4) (some ⟨.null, CInt.zero, NULL⟩))
        [.push (some 1), .pop, .getSize] = .ok (rs, some st1) ∧ st1.clear = some 4 :=
  (STACK_clear_unchanged ⟨.null, CInt.zero, NULL⟩ (some 4) [.push (some 1), .pop, .getSize]
    (by decide)).2 (by decide) (by decide)
